import Mathlib

/-!
# Verification of the lucca-a53-mini appliance codec, estimator and worker

Shallow embedding of the Python sources:
* `src/parsers/characteristic_parsers.py` — `DateTimeParser`, `BoilerParser`
* `src/schedule_coder.py` — `ScheduleCoder.encode_schedule` / `decode_schedule`
* `src/a53/common/power_state_estimator.py` — `PowerStateEstimator`
* `src/a53/bt/ble_worker.py` — the `list_characteristics` (poll) command handler

Conventions of the embedding:
* byte strings (`bytearray`) become `List ℕ` (each element a byte value);
* Python `float` arithmetic is embedded over `ℚ` (all operations appearing in
  the sources are field operations, exactly representable over `ℚ`);
* Python strings of interest ("HH:MM" time strings) become `List Char`;
* side effects (logging) are dropped; `time.time()` reads are threaded in as
  explicit rational parameters, quantified over in the theorems.
-/

set_option maxHeartbeats 1000000
set_option maxRecDepth 8000

/-! ## "HH:MM" string layer

`decode_schedule` builds time strings with Python `f"{n:02d}"` formatting and
`encode_schedule` consumes them with `map(int, s.split(':'))`.  We embed the
digit characters through their ASCII codes, exactly as Python produces them.
-/

/-- The ASCII digit character for `n < 10` (Python produces ASCII digits). -/
def asciiDigit (n : ℕ) : Char := Char.ofNat (48 + n)

/-- Python `f"{n:02d}"`: the decimal digits of `n`, left-padded with `'0'` to
width 2.  For `n < 100` this is exactly the two digit characters of `n`;
for larger `n` it is the full decimal representation. -/
def format02 (n : ℕ) : List Char :=
  if n < 100 then [asciiDigit (n / 10), asciiDigit (n % 10)]
  else Nat.toDigits 10 n

/-- The string `f"{h:02d}:{m:02d}"` built by `decode_schedule` lines 74–75. -/
def hhmm (h m : ℕ) : List Char := format02 h ++ ':' :: format02 m

/-- Python `int(s)` on a string of decimal digits.  (On non-digit input the
Python call raises `ValueError`; the claims only apply it to digit strings,
where this fold is exact.) -/
def pyInt (s : List Char) : ℕ := s.foldl (fun a c => 10 * a + (c.toNat - 48)) 0

/-- Python `s.split(':')`. -/
def splitColon : List Char → List (List Char)
  | [] => [[]]
  | c :: cs =>
    let r := splitColon cs
    if c = ':' then [] :: r
    else
      match r with
      | [] => [[c]]
      | g :: gs => (c :: g) :: gs

/-- Python `h, m = map(int, s.split(':'))` (schedule_coder.py lines 27–28).
A string that does not split into exactly two parts makes the Python
destructuring raise `ValueError`; the claims' validity hypotheses keep the
input well-formed, where the fallback `(0, 0)` is unreachable. -/
def parseHHMM (s : List Char) : ℕ × ℕ :=
  match splitColon s with
  | [a, b] => (pyInt a, pyInt b)
  | _ => (0, 0)

theorem splitColon_ne_nil (s : List Char) : splitColon s ≠ [] := by
  cases s with
  | nil => simp [splitColon]
  | cons c cs =>
    simp only [splitColon]
    by_cases h : c = ':'
    · simp [h]
    · simp only [h, if_false]
      cases splitColon cs <;> simp

theorem splitColon_no_colon (a : List Char) (ha : ∀ c ∈ a, c ≠ ':') :
    splitColon a = [a] := by
  induction a with
  | nil => rfl
  | cons c cs ih =>
    have hc : c ≠ ':' := ha c (by simp)
    simp only [splitColon, hc, if_false]
    rw [ih (fun x hx => ha x (by simp [hx]))]

theorem splitColon_append_colon (a b : List Char) (ha : ∀ c ∈ a, c ≠ ':') :
    splitColon (a ++ ':' :: b) = a :: splitColon b := by
  induction a with
  | nil => simp [splitColon]
  | cons c cs ih =>
    have hc : c ≠ ':' := ha c (by simp)
    have ih2 := ih (fun x hx => ha x (by simp [hx]))
    simp only [List.cons_append, splitColon, hc, if_false, List.append_eq, ih2]

theorem asciiDigit_toNat (k : ℕ) (hk : k < 10) : (asciiDigit k).toNat = 48 + k := by
  interval_cases k <;> decide

theorem asciiDigit_ne_colon (k : ℕ) (hk : k < 10) : asciiDigit k ≠ ':' := by
  interval_cases k <;> decide

theorem format02_no_colon (n : ℕ) (hn : n < 100) : ∀ c ∈ format02 n, c ≠ ':' := by
  have h1 : n / 10 < 10 := Nat.div_lt_of_lt_mul (by omega)
  have h2 : n % 10 < 10 := Nat.mod_lt _ (by omega)
  simp only [format02, hn, if_true, List.mem_cons, List.not_mem_nil, or_false]
  rintro c (rfl | rfl)
  · exact asciiDigit_ne_colon _ h1
  · exact asciiDigit_ne_colon _ h2

theorem pyInt_format02 (n : ℕ) (hn : n < 100) : pyInt (format02 n) = n := by
  have h1 : n / 10 < 10 := Nat.div_lt_of_lt_mul (by omega)
  have h2 : n % 10 < 10 := Nat.mod_lt _ (by omega)
  simp only [format02, hn, if_true, pyInt, List.foldl_cons, List.foldl_nil,
    asciiDigit_toNat _ h1, asciiDigit_toNat _ h2]
  omega

theorem parseHHMM_hhmm (h m : ℕ) (hh : h < 100) (hm : m < 100) :
    parseHHMM (hhmm h m) = (h, m) := by
  simp only [parseHHMM, hhmm,
    splitColon_append_colon _ _ (format02_no_colon h hh),
    splitColon_no_colon _ (format02_no_colon m hm),
    pyInt_format02 h hh, pyInt_format02 m hm]

/-! ## `DateTimeParser` (characteristic_parsers.py lines 20–48)

`parse_value` extracts six numeric fields and renders them into a display
string `f"{year:04d}-..."`; the string rendering is presentation only, so the
embedding returns the extracted fields.  `encode_value` consumes a `datetime`
object; its six fields are embedded as `ApplianceTime`. -/

structure ApplianceTime where
  year : ℕ
  month : ℕ
  day : ℕ
  hour : ℕ
  minute : ℕ
  second : ℕ
deriving DecidableEq, Repr

/-- `DateTimeParser.parse_value`, lines 25–36: returns the six decoded fields
(wrapped in the display string by the source) when the payload has at least
7 bytes, and `None` otherwise.  Byte 3 is skipped (`value[3] is unknown`). -/
def DateTimeParser.parse_value (value : List ℕ) : Option ApplianceTime :=
  if 7 ≤ value.length then
    some { year := value.getD 0 0 + 2000
           month := value.getD 1 0
           day := value.getD 2 0
           hour := value.getD 4 0
           minute := value.getD 5 0
           second := value.getD 6 0 }
  else none

/-- `DateTimeParser.encode_value`, lines 38–48. -/
def DateTimeParser.encode_value (dt : ApplianceTime) : List ℕ :=
  [dt.year - 2000, dt.month, dt.day, 0, dt.hour, dt.minute, dt.second]

/-! ## `BoilerParser` (characteristic_parsers.py lines 76–108) -/

structure BoilerReading where
  temperature : ℚ
  statusCode : ℕ
  percentage : ℚ
deriving DecidableEq, Repr

/-- `BoilerParser.parse_value`, lines 81–104: `None` for payloads shorter than
4 bytes; otherwise temperature `int.from_bytes(value[0:2], 'little') / 10.0`,
status code `value[1]`, and the name-dependent percentage.  The display-string
formatting around these numbers is presentation only. -/
def BoilerParser.parse_value (name : String) (value : List ℕ) : Option BoilerReading :=
  if value.length < 4 then none
  else
    let temp_raw : ℕ := value.getD 0 0 + 256 * value.getD 1 0
    let status_code_byte := value.getD 1 0
    let percentage : ℚ :=
      if name = "Brew" then (status_code_byte / (3 : ℚ)) * 100
      else if name = "Steam" then (status_code_byte / (4 : ℚ)) * 100
      else 0
    some { temperature := (temp_raw : ℚ) / 10
           statusCode := status_code_byte
           percentage := percentage }

/-! ## `ScheduleCoder` (schedule_coder.py)

The Python dict mapping the seven fixed day names to slot lists is embedded as
a function `Fin 7 → Option (List SlotEntry)`: index `d` stands for
`DAYS_OF_WEEK_ORDER[d]` (`0 = Monday, …, 6 = Sunday`); `none` means the key is
absent and `some l` means the key is present with value `l`.  Python dict
equality is extensional, matching function equality here.

Each slot entry dict `{"start": …, "end": …, "boiler_on": …}` becomes a record;
`end` is a Lean keyword, so that field is called `end_`. -/

structure SlotEntry where
  start : List Char
  end_ : List Char
  boiler_on : Bool
deriving DecidableEq, Repr

def WeeklySchedule := Fin 7 → Option (List SlotEntry)

namespace ScheduleCoder

/-- Packing of one slot, lines 23–39: parse the two "HH:MM" strings, mask the
start hour with `0x7F`, set the MSB when `boiler_on`, then
`struct.pack('<BBBB', end_minute, end_hour, start_minute, start_hour_byte)`.
`struct.pack` with format `B` is the identity on byte values (it raises
`struct.error` outside `0–255`; the claims' validity hypotheses keep every
field below 256). -/
def encodeSlot (slot : SlotEntry) : List ℕ :=
  let start_hour := (parseHHMM slot.start).1
  let start_minute := (parseHHMM slot.start).2
  let end_hour := (parseHHMM slot.end_).1
  let end_minute := (parseHHMM slot.end_).2
  let start_hour_byte := (start_hour &&& 0x7F) ||| (if slot.boiler_on then 0x80 else 0)
  [end_minute, end_hour, start_minute, start_hour_byte]

/-- Slot position `i` of the day at `slots`, line 21: the entry when
`slot_index < len(slots)`, otherwise the four zero bytes of line 43. -/
def slotOrZero (slots : List SlotEntry) (i : ℕ) : List ℕ :=
  match slots[i]? with
  | some s => encodeSlot s
  | none => [0, 0, 0, 0]

/-- The 12 bytes a single iteration of the day loop (lines 16–43) writes at
offsets `day_index*12 … day_index*12+11`: the three slot positions in order
(`for slot_index in range(3)`), unrolled. -/
def encodeDay (slots : List SlotEntry) : List ℕ :=
  slotOrZero slots 0 ++ slotOrZero slots 1 ++ slotOrZero slots 2

/-- `ScheduleCoder.encode_schedule`, lines 10–45.  The loop writes 4 bytes at
offset `(day_index * 3 + slot_index) * 4` for every `day_index < 7`,
`slot_index < 3` — these offsets tile `0…83` in order, so the preallocated
84-byte buffer equals the concatenation of the seven day blocks.
`schedule_data.get(day_name, [])` is `(s d).getD []`. -/
def encode_schedule (s : WeeklySchedule) : List ℕ :=
  encodeDay ((s 0).getD []) ++ encodeDay ((s 1).getD []) ++ encodeDay ((s 2).getD []) ++
  encodeDay ((s 3).getD []) ++ encodeDay ((s 4).getD []) ++ encodeDay ((s 5).getD []) ++
  encodeDay ((s 6).getD [])

/-- `value[offset:offset+4]` at `offset = (day_index * 3 + slot_index) * 4`,
lines 60–61. -/
def slotAt (value : List ℕ) (day i : ℕ) : List ℕ :=
  (value.drop ((day * 3 + i) * 4)).take 4

/-- Unpacking of one slot, lines 68–77.  `struct.unpack('<BBBB', slot_data)`
destructures the four bytes (decode only reaches it with exactly 4 bytes, so
the `getD` defaults are unreachable). -/
def decodeSlot (slot_data : List ℕ) : SlotEntry :=
  let end_minute := slot_data.getD 0 0
  let end_hour := slot_data.getD 1 0
  let start_minute := slot_data.getD 2 0
  let start_hour_byte := slot_data.getD 3 0
  let start_hour := start_hour_byte &&& 0x7F
  { start := hhmm start_hour start_minute
    end_ := hhmm end_hour end_minute
    boiler_on := (start_hour_byte &&& 0x80) != 0 }

/-- The all-zero test of line 64 (`not any(slot_data)`). -/
def zeroSlotB (slot_data : List ℕ) : Bool := slot_data.all (· == 0)

/-- One iteration of the slot loop (lines 59–77): skip when all four bytes are
zero (`if not any(slot_data): continue`), else append the decoded entry. -/
def decodeSlotOpt (value : List ℕ) (day i : ℕ) : List SlotEntry :=
  let slot_data := slotAt value day i
  if zeroSlotB slot_data then [] else [decodeSlot slot_data]

/-- The `day_slots` list built for one day (lines 58–77), loop unrolled. -/
def decodeDaySlots (value : List ℕ) (day : ℕ) : List SlotEntry :=
  decodeSlotOpt value day 0 ++ decodeSlotOpt value day 1 ++ decodeSlotOpt value day 2

/-- `ScheduleCoder.decode_schedule`, lines 47–82: the empty dict for inputs
shorter than 84 bytes; otherwise a day is a key of the result iff its
`day_slots` list is nonempty (`if day_slots:` line 79). -/
def decode_schedule (value : List ℕ) : WeeklySchedule :=
  if value.length < 84 then fun _ => none
  else fun d =>
    let day_slots := decodeDaySlots value d.val
    if day_slots = [] then none else some day_slots

/-! ### Well-formedness predicates used by the claims -/

/-- A used slot with valid fields: end minute/second-component below 60, hours
below 24 (so the masked start hour is recovered exactly), and a byte-ranged
start-hour byte. -/
def validSlotB (slot_data : List ℕ) : Bool :=
  match slot_data with
  | [end_minute, end_hour, start_minute, start_hour_byte] =>
    decide (end_minute < 60) && decide (end_hour < 24) && decide (start_minute < 60) &&
    decide (start_hour_byte < 256) && decide (start_hour_byte &&& 0x7F < 24)
  | _ => false

/-- An 84-byte payload in which every slot is all-zero or has valid fields. -/
def wfPayloadB (b : List ℕ) : Bool :=
  b.length == 84 &&
  (List.range 7).all fun d => (List.range 3).all fun i =>
    zeroSlotB (slotAt b d i) || validSlotB (slotAt b d i)

/-- Within each day, every slot after an all-zero slot is all-zero (the used
slots occupy the leading positions). -/
def compactDaysB (b : List ℕ) : Bool :=
  (List.range 7).all fun d => (List.range 2).all fun i =>
    !zeroSlotB (slotAt b d i) || zeroSlotB (slotAt b d (i + 1))

end ScheduleCoder

/-! ## Bitmask helper lemmas -/

theorem byte_mask_roundtrip (x : ℕ) (hx : x < 256) :
    ((x &&& 127) &&& 127) ||| (if (x &&& 128) != 0 then 128 else 0) = x := by
  have h : ∀ y : Fin 256,
      ((y.val &&& 127) &&& 127) ||| (if (y.val &&& 128) != 0 then 128 else 0) = y.val := by
    decide
  exact h ⟨x, hx⟩

theorem hour_byte_mask (h : ℕ) (hh : h < 128) (b : Bool) :
    (((h &&& 127) ||| (if b then 128 else 0)) &&& 127 = h) ∧
    ((((h &&& 127) ||| (if b then 128 else 0)) &&& 128 != 0) = b) ∧
    (((h &&& 127) ||| (if b then 128 else 0)) < 256) := by
  have key : ∀ y : Fin 128, ∀ c : Bool,
      (((y.val &&& 127) ||| (if c then 128 else 0)) &&& 127 = y.val) ∧
      ((((y.val &&& 127) ||| (if c then 128 else 0)) &&& 128 != 0) = c) ∧
      (((y.val &&& 127) ||| (if c then 128 else 0)) < 256) := by decide
  exact key ⟨h, hh⟩ b

theorem and127_lt_128 (x : ℕ) : x &&& 127 < 128 :=
  Nat.lt_succ_of_le (Nat.and_le_right.trans (by omega))

/-! ## Claim theorems: time and boiler codec -/

/-- C8: for every `ApplianceTime` with year 2000–2255, month 1–12, day 1–31,
hour 0–23, minute 0–59, second 0–59, decoding the 7-byte encoding yields the
same fields, and the reserved byte (byte 3) of the encoding is 0. -/
theorem C8_time_roundtrip (t : ApplianceTime)
    (hy1 : 2000 ≤ t.year) (hy2 : t.year ≤ 2255)
    (hmo1 : 1 ≤ t.month) (hmo2 : t.month ≤ 12)
    (hd1 : 1 ≤ t.day) (hd2 : t.day ≤ 31)
    (hh : t.hour ≤ 23) (hmi : t.minute ≤ 59) (hs : t.second ≤ 59) :
    DateTimeParser.parse_value (DateTimeParser.encode_value t) = some t ∧
    (DateTimeParser.encode_value t).getD 3 0 = 0 := by
  obtain ⟨y, mo, d, h, mi, s⟩ := t
  refine ⟨?_, rfl⟩
  have hyy : y - 2000 + 2000 = y := by simp at hy1 ⊢; omega
  simp [DateTimeParser.parse_value, DateTimeParser.encode_value, List.getD,
    ApplianceTime.mk.injEq, hyy]

theorem C8_witness :
    DateTimeParser.parse_value (DateTimeParser.encode_value ⟨2025, 10, 12, 23, 59, 58⟩) =
      some ⟨2025, 10, 12, 23, 59, 58⟩ ∧
    (DateTimeParser.encode_value ⟨2025, 10, 12, 23, 59, 58⟩).getD 3 0 = 0 :=
  C8_time_roundtrip ⟨2025, 10, 12, 23, 59, 58⟩ (by decide) (by decide) (by decide)
    (by decide) (by decide) (by decide) (by decide) (by decide) (by decide)

/-- C6: for every boiler payload of at least 4 bytes, the decoded temperature
is the little-endian 16-bit value of bytes 0 and 1 divided by 10, and the
status code is byte 1; in particular `[0x84, 0x03, 0x01, 0x00]` decodes to
temperature 90 and status code 3. -/
theorem C6_boiler_decode :
    (∀ (name : String) (v : List ℕ), 4 ≤ v.length →
      ∃ r, BoilerParser.parse_value name v = some r ∧
        r.temperature = ((v.getD 0 0 + 256 * v.getD 1 0 : ℕ) : ℚ) / 10 ∧
        r.statusCode = v.getD 1 0) ∧
    (∃ r, BoilerParser.parse_value "Brew" [0x84, 0x03, 0x01, 0x00] = some r ∧
      r.temperature = 90 ∧ r.statusCode = 3) := by
  constructor
  · intro name v hv
    have h4 : ¬ v.length < 4 := by omega
    exact ⟨{ temperature := ((v.getD 0 0 + 256 * v.getD 1 0 : ℕ) : ℚ) / 10
             statusCode := v.getD 1 0
             percentage := if name = "Brew" then ((v.getD 1 0 : ℕ) : ℚ) / 3 * 100
               else if name = "Steam" then ((v.getD 1 0 : ℕ) : ℚ) / 4 * 100 else 0 },
           by simp [BoilerParser.parse_value, h4], rfl, rfl⟩
  · refine ⟨⟨90, 3, 100⟩, ?_, rfl, rfl⟩
    norm_num [BoilerParser.parse_value, BoilerReading.mk.injEq]

theorem C6_witness :
    ∃ r, BoilerParser.parse_value "Steam" [0x5A, 0x00, 0x01, 0x00] = some r ∧
      r.temperature = ((0x5A + 256 * 0 : ℕ) : ℚ) / 10 ∧ r.statusCode = 0 := by
  have h := C6_boiler_decode.1 "Steam" [0x5A, 0x00, 0x01, 0x00] (by decide)
  simpa using h

/-! ## Claim theorems: short-input behavior (C3) -/

/-- C3 counterexample: the claim says short inputs fail with a
`MalformedPayload` error, but no such error exists in the code.  Decoding a
malformed 83-byte schedule payload returns the very same value (the empty
dict) as successfully decoding a well-formed all-zero 84-byte payload, so no
error of any kind is signalled for short schedule inputs. -/
theorem C3_counterexample :
    ScheduleCoder.decode_schedule (List.replicate 83 1) =
      ScheduleCoder.decode_schedule (List.replicate 84 0) := by
  funext d
  have h1 : ScheduleCoder.decode_schedule (List.replicate 83 1) d = none := by
    simp [ScheduleCoder.decode_schedule]
  have h2 : ScheduleCoder.decode_schedule (List.replicate 84 0) d = none := by
    have : ∀ d : Fin 7, ScheduleCoder.decode_schedule (List.replicate 84 0) d = none := by
      decide
    exact this d
  rw [h1, h2]

/-- C3 amended: for inputs of fewer than 7 bytes the time parser returns
`None` (no exception is raised), and for inputs of fewer than 84 bytes
`decode_schedule` returns the empty dict — a value indistinguishable from a
successful decode of an all-zero payload.  Both are pure static methods, so
no state is mutated. -/
theorem C3_short_inputs (v w : List ℕ) (hv : v.length < 7) (hw : w.length < 84) :
    DateTimeParser.parse_value v = none ∧
    ScheduleCoder.decode_schedule w = fun _ => none := by
  constructor
  · simp [DateTimeParser.parse_value]; omega
  · unfold ScheduleCoder.decode_schedule
    rw [if_pos hw]

theorem C3_witness :
    DateTimeParser.parse_value [1, 2, 3] = none ∧
    ScheduleCoder.decode_schedule [5] = fun _ => none :=
  C3_short_inputs [1, 2, 3] [5] (by decide) (by decide)

/-! ## Slot-level roundtrip lemmas -/

theorem encodeSlot_decodeSlot :
    ∀ sd : List ℕ, ScheduleCoder.validSlotB sd = true →
      ScheduleCoder.encodeSlot (ScheduleCoder.decodeSlot sd) = sd
  | [em, eh, sm, shb], h => by
    simp only [ScheduleCoder.validSlotB, Bool.and_eq_true, decide_eq_true_eq] at h
    obtain ⟨⟨⟨⟨h1, h2⟩, h3⟩, h4⟩, h5⟩ := h
    have p1 : parseHHMM (hhmm (shb &&& 0x7F) sm) = (shb &&& 0x7F, sm) :=
      parseHHMM_hhmm _ _ (by omega) (by omega)
    have p2 : parseHHMM (hhmm eh em) = (eh, em) :=
      parseHHMM_hhmm _ _ (by omega) (by omega)
    have hdec : ScheduleCoder.decodeSlot [em, eh, sm, shb] =
        { start := hhmm (shb &&& 0x7F) sm
          end_ := hhmm eh em
          boiler_on := (shb &&& 0x80) != 0 } := rfl
    rw [hdec]
    simp only [ScheduleCoder.encodeSlot, p1, p2]
    simp only [List.cons.injEq, and_true, true_and]
    exact byte_mask_roundtrip shb h4

theorem zeroSlot_eq (sd : List ℕ) (h : ScheduleCoder.zeroSlotB sd = true)
    (hl : sd.length = 4) : sd = [0, 0, 0, 0] := by
  rcases sd with _ | ⟨a, _ | ⟨b, _ | ⟨c, _ | ⟨d, _ | ⟨e, t⟩⟩⟩⟩⟩ <;>
    simp_all [ScheduleCoder.zeroSlotB]

theorem slotAt_length (b : List ℕ) (d i : ℕ) (hb : b.length = 84) (hd : d < 7)
    (hi : i < 3) : (ScheduleCoder.slotAt b d i).length = 4 := by
  simp only [ScheduleCoder.slotAt, List.length_take, List.length_drop, hb]
  omega

theorem chunk4 (l : List ℕ) (k : ℕ) :
    (l.drop k).take 4 ++ l.drop (k + 4) = l.drop k := by
  have h : l.drop (k + 4) = (l.drop k).drop 4 := by
    rw [List.drop_drop]
  rw [h, List.take_append_drop]

/-! ## Day-level roundtrip for `encode ∘ decode` -/

theorem encodeDay_nil : ScheduleCoder.encodeDay [] =
    [0, 0, 0, 0] ++ [0, 0, 0, 0] ++ [0, 0, 0, 0] := rfl

theorem encodeDay_one (a : SlotEntry) : ScheduleCoder.encodeDay [a] =
    ScheduleCoder.encodeSlot a ++ [0, 0, 0, 0] ++ [0, 0, 0, 0] := rfl

theorem encodeDay_two (a b : SlotEntry) : ScheduleCoder.encodeDay [a, b] =
    ScheduleCoder.encodeSlot a ++ ScheduleCoder.encodeSlot b ++ [0, 0, 0, 0] := rfl

theorem encodeDay_three (a b c : SlotEntry) : ScheduleCoder.encodeDay [a, b, c] =
    ScheduleCoder.encodeSlot a ++ ScheduleCoder.encodeSlot b ++ ScheduleCoder.encodeSlot c := rfl

theorem encodeDay_decodeDaySlots (b : List ℕ) (d : ℕ) (hb : b.length = 84) (hd : d < 7)
    (hwf : ∀ i, i < 3 → ScheduleCoder.zeroSlotB (ScheduleCoder.slotAt b d i) = true ∨
      ScheduleCoder.validSlotB (ScheduleCoder.slotAt b d i) = true)
    (hcomp : ∀ i, i < 2 → ScheduleCoder.zeroSlotB (ScheduleCoder.slotAt b d i) = true →
      ScheduleCoder.zeroSlotB (ScheduleCoder.slotAt b d (i + 1)) = true) :
    ScheduleCoder.encodeDay (ScheduleCoder.decodeDaySlots b d) =
      ScheduleCoder.slotAt b d 0 ++ ScheduleCoder.slotAt b d 1 ++ ScheduleCoder.slotAt b d 2 := by
  have hz : ∀ i, i < 3 → ScheduleCoder.zeroSlotB (ScheduleCoder.slotAt b d i) = true →
      ScheduleCoder.slotAt b d i = [0, 0, 0, 0] :=
    fun i hi h => zeroSlot_eq _ h (slotAt_length b d i hb hd hi)
  have hv : ∀ i, i < 3 → ScheduleCoder.zeroSlotB (ScheduleCoder.slotAt b d i) = false →
      ScheduleCoder.encodeSlot (ScheduleCoder.decodeSlot (ScheduleCoder.slotAt b d i)) =
        ScheduleCoder.slotAt b d i := by
    intro i hi h
    rcases hwf i hi with h' | h'
    · rw [h] at h'; cases h'
    · exact encodeSlot_decodeSlot _ h'
  rcases h0 : ScheduleCoder.zeroSlotB (ScheduleCoder.slotAt b d 0) with _ | _
  · -- slot 0 used
    rcases h1 : ScheduleCoder.zeroSlotB (ScheduleCoder.slotAt b d 1) with _ | _
    · -- slot 1 used
      rcases h2 : ScheduleCoder.zeroSlotB (ScheduleCoder.slotAt b d 2) with _ | _
      · -- all three used
        simp only [ScheduleCoder.decodeDaySlots, ScheduleCoder.decodeSlotOpt, h0, h1, h2,
          Bool.false_eq_true, if_false, List.cons_append, List.nil_append]
        rw [encodeDay_three, hv 0 (by omega) h0, hv 1 (by omega) h1, hv 2 (by omega) h2]
      · -- slots 0,1 used, slot 2 zero
        simp only [ScheduleCoder.decodeDaySlots, ScheduleCoder.decodeSlotOpt, h0, h1, h2,
          Bool.false_eq_true, if_false, if_true, List.cons_append, List.nil_append,
          List.append_nil]
        rw [encodeDay_two, hv 0 (by omega) h0, hv 1 (by omega) h1, hz 2 (by omega) h2]
    · -- slot 1 zero forces slot 2 zero
      have h2 : ScheduleCoder.zeroSlotB (ScheduleCoder.slotAt b d 2) = true :=
        hcomp 1 (by omega) h1
      simp only [ScheduleCoder.decodeDaySlots, ScheduleCoder.decodeSlotOpt, h0, h1, h2,
        Bool.false_eq_true, if_false, if_true, List.cons_append, List.nil_append,
        List.append_nil]
      rw [encodeDay_one, hv 0 (by omega) h0, hz 1 (by omega) h1, hz 2 (by omega) h2]
  · -- slot 0 zero forces slots 1 and 2 zero
    have h1 : ScheduleCoder.zeroSlotB (ScheduleCoder.slotAt b d 1) = true :=
      hcomp 0 (by omega) h0
    have h2 : ScheduleCoder.zeroSlotB (ScheduleCoder.slotAt b d 2) = true :=
      hcomp 1 (by omega) h1
    simp only [ScheduleCoder.decodeDaySlots, ScheduleCoder.decodeSlotOpt, h0, h1, h2,
      if_true, List.append_nil]
    rw [encodeDay_nil, hz 0 (by omega) h0, hz 1 (by omega) h1, hz 2 (by omega) h2]

/-! ## Claim C1: `encode ∘ decode` on well-formed payloads -/

/-- An 84-byte payload whose Monday block has an all-zero slot 0 followed by a
used slot 1 (end 07:00, start 06:00, boiler off). -/
def cexPayload : List ℕ := [0, 0, 0, 0, 0, 7, 0, 6, 0, 0, 0, 0] ++ List.replicate 72 0

/-- C1 counterexample: the claim includes payloads in which an all-zero slot
precedes a used slot within the same day, but decoding compacts each day's
used slots to the front, so re-encoding moves the used slot: the round trip
is not the identity on this well-formed payload. -/
theorem C1_counterexample :
    ScheduleCoder.wfPayloadB cexPayload = true ∧
    ScheduleCoder.encode_schedule (ScheduleCoder.decode_schedule cexPayload) ≠ cexPayload := by
  constructor
  · decide
  · decide

/-- C1 amended: for every 84-byte payload in which every slot is all-zero or
has valid fields AND every day's used slots precede its all-zero slots,
`encode_schedule (decode_schedule b) = b`. -/
theorem C1_encode_decode_roundtrip (b : List ℕ)
    (hwf : ScheduleCoder.wfPayloadB b = true)
    (hcompact : ScheduleCoder.compactDaysB b = true) :
    ScheduleCoder.encode_schedule (ScheduleCoder.decode_schedule b) = b := by
  have hlen : b.length = 84 := by
    simp only [ScheduleCoder.wfPayloadB, Bool.and_eq_true, beq_iff_eq] at hwf
    exact hwf.1
  have hwf' : ∀ d, d < 7 → ∀ i, i < 3 →
      ScheduleCoder.zeroSlotB (ScheduleCoder.slotAt b d i) = true ∨
      ScheduleCoder.validSlotB (ScheduleCoder.slotAt b d i) = true := by
    intro d hd i hi
    simp only [ScheduleCoder.wfPayloadB, Bool.and_eq_true, List.all_eq_true,
      List.mem_range, Bool.or_eq_true] at hwf
    exact hwf.2 d hd i hi
  have hcomp' : ∀ d, d < 7 → ∀ i, i < 2 →
      ScheduleCoder.zeroSlotB (ScheduleCoder.slotAt b d i) = true →
      ScheduleCoder.zeroSlotB (ScheduleCoder.slotAt b d (i + 1)) = true := by
    intro d hd i hi h
    simp only [ScheduleCoder.compactDaysB, List.all_eq_true, List.mem_range,
      Bool.or_eq_true, Bool.not_eq_true'] at hcompact
    rcases hcompact d hd i hi with h' | h'
    · rw [h] at h'; cases h'
    · exact h'
  have hday : ∀ d, d < 7 → ScheduleCoder.encodeDay (ScheduleCoder.decodeDaySlots b d) =
      ScheduleCoder.slotAt b d 0 ++ ScheduleCoder.slotAt b d 1 ++ ScheduleCoder.slotAt b d 2 :=
    fun d hd => encodeDay_decodeDaySlots b d hlen hd (fun i hi => hwf' d hd i hi)
      (fun i hi => hcomp' d hd i hi)
  have hnlt : ¬ b.length < 84 := by omega
  have hgetD : ∀ k : Fin 7, (ScheduleCoder.decode_schedule b k).getD [] =
      ScheduleCoder.decodeDaySlots b k.val := by
    intro k
    unfold ScheduleCoder.decode_schedule
    rw [if_neg hnlt]
    by_cases hds : ScheduleCoder.decodeDaySlots b k.val = []
    · simp [hds]
    · simp [hds]
  unfold ScheduleCoder.encode_schedule
  rw [hgetD 0, hgetD 1, hgetD 2, hgetD 3, hgetD 4, hgetD 5, hgetD 6]
  rw [show ((0 : Fin 7) : ℕ) = 0 from rfl, show ((1 : Fin 7) : ℕ) = 1 from rfl,
    show ((2 : Fin 7) : ℕ) = 2 from rfl, show ((3 : Fin 7) : ℕ) = 3 from rfl,
    show ((4 : Fin 7) : ℕ) = 4 from rfl, show ((5 : Fin 7) : ℕ) = 5 from rfl,
    show ((6 : Fin 7) : ℕ) = 6 from rfl]
  rw [hday 0 (by omega), hday 1 (by omega), hday 2 (by omega), hday 3 (by omega),
    hday 4 (by omega), hday 5 (by omega), hday 6 (by omega)]
  have h84 : b.drop 84 = [] := by
    have : b.length ≤ 84 := by omega
    simp [List.drop_eq_nil_iff, this]
  have c4 : (b.drop 4).take 4 ++ b.drop 8 = b.drop 4 := by
    have := chunk4 b 4; norm_num at this; exact this
  have c8 : (b.drop 8).take 4 ++ b.drop 12 = b.drop 8 := by
    have := chunk4 b 8; norm_num at this; exact this
  have c12 : (b.drop 12).take 4 ++ b.drop 16 = b.drop 12 := by
    have := chunk4 b 12; norm_num at this; exact this
  have c16 : (b.drop 16).take 4 ++ b.drop 20 = b.drop 16 := by
    have := chunk4 b 16; norm_num at this; exact this
  have c20 : (b.drop 20).take 4 ++ b.drop 24 = b.drop 20 := by
    have := chunk4 b 20; norm_num at this; exact this
  have c24 : (b.drop 24).take 4 ++ b.drop 28 = b.drop 24 := by
    have := chunk4 b 24; norm_num at this; exact this
  have c28 : (b.drop 28).take 4 ++ b.drop 32 = b.drop 28 := by
    have := chunk4 b 28; norm_num at this; exact this
  have c32 : (b.drop 32).take 4 ++ b.drop 36 = b.drop 32 := by
    have := chunk4 b 32; norm_num at this; exact this
  have c36 : (b.drop 36).take 4 ++ b.drop 40 = b.drop 36 := by
    have := chunk4 b 36; norm_num at this; exact this
  have c40 : (b.drop 40).take 4 ++ b.drop 44 = b.drop 40 := by
    have := chunk4 b 40; norm_num at this; exact this
  have c44 : (b.drop 44).take 4 ++ b.drop 48 = b.drop 44 := by
    have := chunk4 b 44; norm_num at this; exact this
  have c48 : (b.drop 48).take 4 ++ b.drop 52 = b.drop 48 := by
    have := chunk4 b 48; norm_num at this; exact this
  have c52 : (b.drop 52).take 4 ++ b.drop 56 = b.drop 52 := by
    have := chunk4 b 52; norm_num at this; exact this
  have c56 : (b.drop 56).take 4 ++ b.drop 60 = b.drop 56 := by
    have := chunk4 b 56; norm_num at this; exact this
  have c60 : (b.drop 60).take 4 ++ b.drop 64 = b.drop 60 := by
    have := chunk4 b 60; norm_num at this; exact this
  have c64 : (b.drop 64).take 4 ++ b.drop 68 = b.drop 64 := by
    have := chunk4 b 64; norm_num at this; exact this
  have c68 : (b.drop 68).take 4 ++ b.drop 72 = b.drop 68 := by
    have := chunk4 b 68; norm_num at this; exact this
  have c72 : (b.drop 72).take 4 ++ b.drop 76 = b.drop 72 := by
    have := chunk4 b 72; norm_num at this; exact this
  have c76 : (b.drop 76).take 4 ++ b.drop 80 = b.drop 76 := by
    have := chunk4 b 76; norm_num at this; exact this
  have c80 : (b.drop 80).take 4 ++ b.drop 84 = b.drop 80 := by
    have := chunk4 b 80; norm_num at this; exact this
  conv_rhs => rw [← List.take_append_drop 4 b, ← c4, ← c8, ← c12, ← c16, ← c20, ← c24,
    ← c28, ← c32, ← c36, ← c40, ← c44, ← c48, ← c52, ← c56, ← c60, ← c64, ← c68,
    ← c72, ← c76, ← c80, h84]
  simp only [ScheduleCoder.slotAt, List.append_nil, List.append_assoc, List.drop_zero]
  norm_num

/-- A compact well-formed payload: Monday slot 0 used (end 07:00, start 06:00
with the boiler bit set), everything else zero. -/
def c1WitnessPayload : List ℕ := [0, 7, 0, 134] ++ List.replicate 80 0

theorem C1_witness :
    ScheduleCoder.encode_schedule (ScheduleCoder.decode_schedule c1WitnessPayload) =
      c1WitnessPayload :=
  C1_encode_decode_roundtrip c1WitnessPayload (by decide) (by decide)

/-! ## Claim C2: `decode ∘ encode` on valid schedules -/

/-- A schedule entry whose two time strings are valid "HH:MM" values. -/
def validEntry (e : SlotEntry) : Prop :=
  ∃ sh sm eh em, sh < 24 ∧ sm < 60 ∧ eh < 24 ∧ em < 60 ∧
    e.start = hhmm sh sm ∧ e.end_ = hhmm eh em

/-- An entry that does not encode to the all-zero (disabled) slot. -/
def nonzeroEntry (e : SlotEntry) : Prop :=
  ¬ (e.start = hhmm 0 0 ∧ e.end_ = hhmm 0 0 ∧ e.boiler_on = false)

/-- Every day present in the schedule carries a nonempty list of at most 3
valid entries, none encoding to the all-zero slot. -/
def validSchedule (s : WeeklySchedule) : Prop :=
  ∀ d : Fin 7, ∀ l, s d = some l →
    l ≠ [] ∧ l.length ≤ 3 ∧ ∀ e ∈ l, validEntry e ∧ nonzeroEntry e

theorem decodeSlot_encodeSlot (e : SlotEntry) (hv : validEntry e) :
    ScheduleCoder.decodeSlot (ScheduleCoder.encodeSlot e) = e := by
  obtain ⟨sh, sm, eh, em, hsh, hsm, heh, hem, hstart, hend⟩ := hv
  obtain ⟨st, en, bo⟩ := e
  simp only at hstart hend
  subst hstart; subst hend
  have p1 : parseHHMM (hhmm sh sm) = (sh, sm) := parseHHMM_hhmm _ _ (by omega) (by omega)
  have p2 : parseHHMM (hhmm eh em) = (eh, em) := parseHHMM_hhmm _ _ (by omega) (by omega)
  have hm := hour_byte_mask sh (by omega) bo
  simp only [ScheduleCoder.encodeSlot, p1, p2]
  have hdec : ScheduleCoder.decodeSlot
      [em, eh, sm, (sh &&& 0x7F) ||| (if bo then 0x80 else 0)] =
      { start := hhmm (((sh &&& 0x7F) ||| (if bo then 0x80 else 0)) &&& 0x7F) sm
        end_ := hhmm eh em
        boiler_on := (((sh &&& 0x7F) ||| (if bo then 0x80 else 0)) &&& 0x80) != 0 } := rfl
  rw [hdec, hm.1, hm.2.1]

theorem encodeSlot_not_zero (e : SlotEntry) (hv : validEntry e) (hnz : nonzeroEntry e) :
    ScheduleCoder.zeroSlotB (ScheduleCoder.encodeSlot e) = false := by
  obtain ⟨sh, sm, eh, em, hsh, hsm, heh, hem, hstart, hend⟩ := hv
  obtain ⟨st, en, bo⟩ := e
  simp only at hstart hend
  subst hstart; subst hend
  have p1 : parseHHMM (hhmm sh sm) = (sh, sm) := parseHHMM_hhmm _ _ (by omega) (by omega)
  have p2 : parseHHMM (hhmm eh em) = (eh, em) := parseHHMM_hhmm _ _ (by omega) (by omega)
  have hm := hour_byte_mask sh (by omega) bo
  simp only [ScheduleCoder.encodeSlot, p1, p2]
  by_contra hzero
  have hz : ScheduleCoder.zeroSlotB
      [em, eh, sm, (sh &&& 0x7F) ||| (if bo then 0x80 else 0)] = true := by
    rcases h : ScheduleCoder.zeroSlotB
      [em, eh, sm, (sh &&& 0x7F) ||| (if bo then 0x80 else 0)] with _ | _
    · exact absurd h hzero
    · rfl
  simp only [ScheduleCoder.zeroSlotB, List.all_cons, List.all_nil, Bool.and_eq_true,
    beq_iff_eq] at hz
  obtain ⟨hem0, heh0, hsm0, hshb0, -⟩ := hz
  have hsh0 : sh = 0 := by rw [← hm.1, hshb0]; decide
  have hbo : bo = false := by rw [← hm.2.1, hshb0]; decide
  apply hnz
  subst hem0; subst heh0; subst hsm0; subst hsh0; subst hbo
  exact ⟨rfl, rfl, rfl⟩

theorem slotOrZero_length (l : List SlotEntry) (i : ℕ) :
    (ScheduleCoder.slotOrZero l i).length = 4 := by
  unfold ScheduleCoder.slotOrZero
  cases l[i]? <;> simp [ScheduleCoder.encodeSlot]

theorem encodeDay_length (l : List SlotEntry) : (ScheduleCoder.encodeDay l).length = 12 := by
  simp [ScheduleCoder.encodeDay, slotOrZero_length]

theorem slotAt_shift12 (L R : List ℕ) (hL : L.length = 12) (d i : ℕ) :
    ScheduleCoder.slotAt (L ++ R) (d + 1) i = ScheduleCoder.slotAt R d i := by
  unfold ScheduleCoder.slotAt
  have harith : ((d + 1) * 3 + i) * 4 = L.length + (d * 3 + i) * 4 := by omega
  rw [harith, List.drop_append]

theorem slotAt_day0 (l : List SlotEntry) (R : List ℕ) (i : ℕ) (hi : i < 3) :
    ScheduleCoder.slotAt (ScheduleCoder.encodeDay l ++ R) 0 i =
      ScheduleCoder.slotOrZero l i := by
  have h0 := slotOrZero_length l 0
  have h1 := slotOrZero_length l 1
  have h2 := slotOrZero_length l 2
  unfold ScheduleCoder.slotAt ScheduleCoder.encodeDay
  interval_cases i
  · norm_num
    exact List.take_left' h0
  · norm_num
    rw [List.drop_left' h0]
    exact List.take_left' h1
  · norm_num
    rw [show (8 : ℕ) = (ScheduleCoder.slotOrZero l 0).length + 4 by rw [h0],
      List.drop_append, List.drop_left' h1]
    exact List.take_left' h2

theorem slotAt_encode (s : WeeklySchedule) (d : Fin 7) (i : ℕ) (hi : i < 3) :
    ScheduleCoder.slotAt (ScheduleCoder.encode_schedule s) d.val i =
      ScheduleCoder.slotOrZero ((s d).getD []) i := by
  have hassoc : ScheduleCoder.encode_schedule s =
      ScheduleCoder.encodeDay ((s 0).getD []) ++ (ScheduleCoder.encodeDay ((s 1).getD []) ++
      (ScheduleCoder.encodeDay ((s 2).getD []) ++ (ScheduleCoder.encodeDay ((s 3).getD []) ++
      (ScheduleCoder.encodeDay ((s 4).getD []) ++ (ScheduleCoder.encodeDay ((s 5).getD []) ++
      (ScheduleCoder.encodeDay ((s 6).getD []) ++ [])))))) := by
    simp [ScheduleCoder.encode_schedule, List.append_assoc]
  obtain ⟨dv, hd⟩ := d
  show ScheduleCoder.slotAt (ScheduleCoder.encode_schedule s) dv i = _
  rw [hassoc]
  interval_cases dv
  · exact slotAt_day0 _ _ i hi
  · exact (slotAt_shift12 _ _ (encodeDay_length _) 0 i).trans (slotAt_day0 _ _ i hi)
  · exact (slotAt_shift12 _ _ (encodeDay_length _) 1 i).trans
      ((slotAt_shift12 _ _ (encodeDay_length _) 0 i).trans (slotAt_day0 _ _ i hi))
  · exact (slotAt_shift12 _ _ (encodeDay_length _) 2 i).trans
      ((slotAt_shift12 _ _ (encodeDay_length _) 1 i).trans
      ((slotAt_shift12 _ _ (encodeDay_length _) 0 i).trans (slotAt_day0 _ _ i hi)))
  · exact (slotAt_shift12 _ _ (encodeDay_length _) 3 i).trans
      ((slotAt_shift12 _ _ (encodeDay_length _) 2 i).trans
      ((slotAt_shift12 _ _ (encodeDay_length _) 1 i).trans
      ((slotAt_shift12 _ _ (encodeDay_length _) 0 i).trans (slotAt_day0 _ _ i hi))))
  · exact (slotAt_shift12 _ _ (encodeDay_length _) 4 i).trans
      ((slotAt_shift12 _ _ (encodeDay_length _) 3 i).trans
      ((slotAt_shift12 _ _ (encodeDay_length _) 2 i).trans
      ((slotAt_shift12 _ _ (encodeDay_length _) 1 i).trans
      ((slotAt_shift12 _ _ (encodeDay_length _) 0 i).trans (slotAt_day0 _ _ i hi)))))
  · exact (slotAt_shift12 _ _ (encodeDay_length _) 5 i).trans
      ((slotAt_shift12 _ _ (encodeDay_length _) 4 i).trans
      ((slotAt_shift12 _ _ (encodeDay_length _) 3 i).trans
      ((slotAt_shift12 _ _ (encodeDay_length _) 2 i).trans
      ((slotAt_shift12 _ _ (encodeDay_length _) 1 i).trans
      ((slotAt_shift12 _ _ (encodeDay_length _) 0 i).trans (slotAt_day0 _ _ i hi))))))

theorem decodeDaySlots_encode (s : WeeklySchedule) (d : Fin 7)
    (hval : ∀ l, s d = some l →
      l ≠ [] ∧ l.length ≤ 3 ∧ ∀ e ∈ l, validEntry e ∧ nonzeroEntry e) :
    ScheduleCoder.decodeDaySlots (ScheduleCoder.encode_schedule s) d.val =
      (s d).getD [] := by
  have e0 := slotAt_encode s d 0 (by omega)
  have e1 := slotAt_encode s d 1 (by omega)
  have e2 := slotAt_encode s d 2 (by omega)
  simp only [ScheduleCoder.decodeDaySlots, ScheduleCoder.decodeSlotOpt]
  rw [e0, e1, e2]
  cases hsd : s d with
  | none =>
    simp only [hsd, Option.getD_none]
    simp [ScheduleCoder.slotOrZero, ScheduleCoder.zeroSlotB]
  | some l =>
    obtain ⟨hne, hlen3, hent⟩ := hval l hsd
    simp only [hsd, Option.getD_some]
    rcases l with _ | ⟨a, _ | ⟨b, _ | ⟨c, _ | ⟨e4, t⟩⟩⟩⟩
    · exact absurd rfl hne
    · obtain ⟨hva, hna⟩ := hent a (by simp)
      simp only [show ScheduleCoder.slotOrZero [a] 0 = ScheduleCoder.encodeSlot a from rfl,
        show ScheduleCoder.slotOrZero [a] 1 = [0, 0, 0, 0] from rfl,
        show ScheduleCoder.slotOrZero [a] 2 = [0, 0, 0, 0] from rfl,
        encodeSlot_not_zero a hva hna,
        show ScheduleCoder.zeroSlotB [0, 0, 0, 0] = true from rfl,
        Bool.false_eq_true, if_false, if_true, List.append_nil]
      rw [decodeSlot_encodeSlot a hva]
    · obtain ⟨hva, hna⟩ := hent a (by simp)
      obtain ⟨hvb, hnb⟩ := hent b (by simp)
      simp only [show ScheduleCoder.slotOrZero [a, b] 0 = ScheduleCoder.encodeSlot a from rfl,
        show ScheduleCoder.slotOrZero [a, b] 1 = ScheduleCoder.encodeSlot b from rfl,
        show ScheduleCoder.slotOrZero [a, b] 2 = [0, 0, 0, 0] from rfl,
        encodeSlot_not_zero a hva hna, encodeSlot_not_zero b hvb hnb,
        show ScheduleCoder.zeroSlotB [0, 0, 0, 0] = true from rfl,
        Bool.false_eq_true, if_false, if_true, List.append_nil]
      rw [decodeSlot_encodeSlot a hva, decodeSlot_encodeSlot b hvb]
      rfl
    · obtain ⟨hva, hna⟩ := hent a (by simp)
      obtain ⟨hvb, hnb⟩ := hent b (by simp)
      obtain ⟨hvc, hnc⟩ := hent c (by simp)
      simp only [show ScheduleCoder.slotOrZero [a, b, c] 0 = ScheduleCoder.encodeSlot a from rfl,
        show ScheduleCoder.slotOrZero [a, b, c] 1 = ScheduleCoder.encodeSlot b from rfl,
        show ScheduleCoder.slotOrZero [a, b, c] 2 = ScheduleCoder.encodeSlot c from rfl,
        encodeSlot_not_zero a hva hna, encodeSlot_not_zero b hvb hnb,
        encodeSlot_not_zero c hvc hnc, Bool.false_eq_true, if_false]
      rw [decodeSlot_encodeSlot a hva, decodeSlot_encodeSlot b hvb,
        decodeSlot_encodeSlot c hvc]
      rfl
    · simp only [List.length_cons] at hlen3
      omega

/-- The schedule dict `{"Monday": []}`: Monday present with an empty list. -/
def mondayEmptySchedule : WeeklySchedule := fun d => if d = 0 then some [] else none

/-- The schedule dict `{"Monday": [{"start": "00:00", "end": "00:00",
"boiler_on": False}]}`: one entry with valid fields that encodes to the
all-zero slot. -/
def mondayZeroEntrySchedule : WeeklySchedule := fun d =>
  if d = 0 then some [{ start := hhmm 0 0, end_ := hhmm 0 0, boiler_on := false }] else none

/-- C2 counterexample: decoding drops days whose slot lists come back empty,
so a day mapped to `[]` (explicitly included by the claim) does not survive
the round trip; neither does a day whose single entry encodes to the all-zero
slot. -/
theorem C2_counterexample :
    (ScheduleCoder.decode_schedule (ScheduleCoder.encode_schedule mondayEmptySchedule) ≠
      mondayEmptySchedule) ∧
    (ScheduleCoder.decode_schedule (ScheduleCoder.encode_schedule mondayZeroEntrySchedule) ≠
      mondayZeroEntrySchedule) := by
  constructor
  · intro h
    have h0 := congrFun h 0
    have hl : ScheduleCoder.decode_schedule
        (ScheduleCoder.encode_schedule mondayEmptySchedule) 0 = none := by decide
    have hr : mondayEmptySchedule 0 = some [] := rfl
    rw [hl, hr] at h0
    exact Option.noConfusion h0
  · intro h
    have h0 := congrFun h 0
    have hl : ScheduleCoder.decode_schedule
        (ScheduleCoder.encode_schedule mondayZeroEntrySchedule) 0 = none := by decide
    have hr : mondayZeroEntrySchedule 0 =
        some [{ start := hhmm 0 0, end_ := hhmm 0 0, boiler_on := false }] := rfl
    rw [hl, hr] at h0
    exact Option.noConfusion h0

/-- C2 amended: for every `WeeklySchedule` in which each present day maps to a
NONEMPTY list of at most 3 entries with valid "HH:MM" fields, none of which
encodes to the all-zero slot, `decode_schedule (encode_schedule s) = s`. -/
theorem C2_decode_encode_roundtrip (s : WeeklySchedule) (hval : validSchedule s) :
    ScheduleCoder.decode_schedule (ScheduleCoder.encode_schedule s) = s := by
  have hlen : (ScheduleCoder.encode_schedule s).length = 84 := by
    simp [ScheduleCoder.encode_schedule, encodeDay_length]
  have hbody : ScheduleCoder.decode_schedule (ScheduleCoder.encode_schedule s) =
      fun d =>
        if ScheduleCoder.decodeDaySlots (ScheduleCoder.encode_schedule s) d.val = []
        then none
        else some (ScheduleCoder.decodeDaySlots (ScheduleCoder.encode_schedule s) d.val) := by
    unfold ScheduleCoder.decode_schedule
    rw [if_neg (by omega)]
  funext d
  rw [hbody]
  show (if ScheduleCoder.decodeDaySlots (ScheduleCoder.encode_schedule s) d.val = []
        then none
        else some (ScheduleCoder.decodeDaySlots (ScheduleCoder.encode_schedule s) d.val)) = s d
  rw [decodeDaySlots_encode s d (fun l hl => hval d l hl)]
  cases hsd : s d with
  | none => simp [hsd]
  | some l =>
    have hne := (hval d l hsd).1
    simp [hsd, hne]

/-- A valid two-day schedule used to instantiate the amended C2 theorem. -/
def c2WitnessSchedule : WeeklySchedule := fun d =>
  if d = 0 then
    some [{ start := hhmm 6 0, end_ := hhmm 9 0, boiler_on := true },
          { start := hhmm 17 0, end_ := hhmm 22 0, boiler_on := false }]
  else if d = 4 then
    some [{ start := hhmm 12 0, end_ := hhmm 13 0, boiler_on := true }]
  else none

theorem C2_witness :
    ScheduleCoder.decode_schedule (ScheduleCoder.encode_schedule c2WitnessSchedule) =
      c2WitnessSchedule := by
  apply C2_decode_encode_roundtrip
  intro d l hl
  fin_cases d <;> simp [c2WitnessSchedule] at hl
  · subst hl
    refine ⟨by simp, by simp, ?_⟩
    intro e he
    simp only [List.mem_cons, List.not_mem_nil, or_false] at he
    rcases he with rfl | rfl
    · exact ⟨⟨6, 0, 9, 0, by omega, by omega, by omega, by omega, rfl, rfl⟩,
        fun h => Bool.noConfusion h.2.2⟩
    · exact ⟨⟨17, 0, 22, 0, by omega, by omega, by omega, by omega, rfl, rfl⟩,
        fun h => absurd h.1 (by decide)⟩
  · subst hl
    refine ⟨by simp, by simp, ?_⟩
    intro e he
    simp only [List.mem_cons, List.not_mem_nil, or_false] at he
    rcases he with rfl
    exact ⟨⟨12, 0, 13, 0, by omega, by omega, by omega, by omega, rfl, rfl⟩,
      fun h => Bool.noConfusion h.2.2⟩

/-! ## Claim C9: shape of `encode_schedule` output -/

/-- An entry whose two time strings parse as "HH:MM" with two-digit
components (so that every re-packed byte stays below 256, as `struct.pack`
requires). -/
def parsableEntry (e : SlotEntry) : Prop :=
  ∃ sh sm eh em, sh < 100 ∧ sm < 100 ∧ eh < 100 ∧ em < 100 ∧
    e.start = hhmm sh sm ∧ e.end_ = hhmm eh em

theorem encodeDay_take3 (l : List SlotEntry) :
    ScheduleCoder.encodeDay (l.take 3) = ScheduleCoder.encodeDay l := by
  unfold ScheduleCoder.encodeDay ScheduleCoder.slotOrZero
  rw [List.getElem?_take, List.getElem?_take, List.getElem?_take]
  norm_num

/-- C9: for every schedule whose entries carry parsable "HH:MM" strings,
`encode_schedule` returns exactly 84 bytes; absent days and slot positions at
or beyond a day's number of provided entries are encoded as four zero bytes;
and entries beyond the third of a day are silently dropped (encoding the
schedule equals encoding its per-day 3-entry truncation). -/
theorem C9_encode_shape (s : WeeklySchedule)
    (hp : ∀ d : Fin 7, ∀ l, s d = some l → ∀ e ∈ l, parsableEntry e) :
    (ScheduleCoder.encode_schedule s).length = 84 ∧
    (∀ d : Fin 7, ∀ i, i < 3 → ((s d).getD []).length ≤ i →
      ScheduleCoder.slotAt (ScheduleCoder.encode_schedule s) d.val i = [0, 0, 0, 0]) ∧
    ScheduleCoder.encode_schedule s =
      ScheduleCoder.encode_schedule (fun d => (s d).map (fun l => l.take 3)) := by
  refine ⟨?_, ?_, ?_⟩
  · simp [ScheduleCoder.encode_schedule, encodeDay_length]
  · intro d i hi hlen
    rw [slotAt_encode s d i hi]
    unfold ScheduleCoder.slotOrZero
    rw [List.getElem?_eq_none hlen]
  · have h3 : ∀ k : Fin 7,
        ScheduleCoder.encodeDay (((s k).map (fun l => l.take 3)).getD []) =
          ScheduleCoder.encodeDay ((s k).getD []) := by
      intro k
      cases hk : s k with
      | none => simp [hk]
      | some l =>
        simp only [hk, Option.map_some', Option.getD_some]
        exact encodeDay_take3 l
    simp only [ScheduleCoder.encode_schedule]
    rw [h3 0, h3 1, h3 2, h3 3, h3 4, h3 5, h3 6]

/-- A schedule with four Monday entries (the fourth must be dropped). -/
def c9WitnessSchedule : WeeklySchedule := fun d =>
  if d = 0 then
    some [{ start := hhmm 6 0, end_ := hhmm 9 0, boiler_on := true },
          { start := hhmm 10 0, end_ := hhmm 11 0, boiler_on := false },
          { start := hhmm 12 0, end_ := hhmm 13 0, boiler_on := false },
          { start := hhmm 14 0, end_ := hhmm 15 0, boiler_on := true }]
  else none

theorem C9_witness :
    (ScheduleCoder.encode_schedule c9WitnessSchedule).length = 84 ∧
    (∀ d : Fin 7, ∀ i, i < 3 → ((c9WitnessSchedule d).getD []).length ≤ i →
      ScheduleCoder.slotAt (ScheduleCoder.encode_schedule c9WitnessSchedule) d.val i =
        [0, 0, 0, 0]) ∧
    ScheduleCoder.encode_schedule c9WitnessSchedule =
      ScheduleCoder.encode_schedule (fun d => (c9WitnessSchedule d).map (fun l => l.take 3)) := by
  apply C9_encode_shape
  intro d l hl
  fin_cases d <;> simp [c9WitnessSchedule] at hl
  subst hl
  intro e he
  simp only [List.mem_cons, List.not_mem_nil, or_false] at he
  rcases he with rfl | rfl | rfl | rfl
  · exact ⟨6, 0, 9, 0, by omega, by omega, by omega, by omega, rfl, rfl⟩
  · exact ⟨10, 0, 11, 0, by omega, by omega, by omega, by omega, rfl, rfl⟩
  · exact ⟨12, 0, 13, 0, by omega, by omega, by omega, by omega, rfl, rfl⟩
  · exact ⟨14, 0, 15, 0, by omega, by omega, by omega, by omega, rfl, rfl⟩

/-! ## Claim C10: structure of `decode_schedule` output -/

theorem decodeDaySlots_eq_filter_map (b : List ℕ) (day : ℕ) :
    ScheduleCoder.decodeDaySlots b day =
      ((List.range 3).filter
          (fun i => !ScheduleCoder.zeroSlotB (ScheduleCoder.slotAt b day i))).map
        (fun i => ScheduleCoder.decodeSlot (ScheduleCoder.slotAt b day i)) := by
  rw [show List.range 3 = [0, 1, 2] from rfl]
  rcases h0 : ScheduleCoder.zeroSlotB (ScheduleCoder.slotAt b day 0) with _ | _ <;>
    rcases h1 : ScheduleCoder.zeroSlotB (ScheduleCoder.slotAt b day 1) with _ | _ <;>
      rcases h2 : ScheduleCoder.zeroSlotB (ScheduleCoder.slotAt b day 2) with _ | _ <;>
        simp [ScheduleCoder.decodeDaySlots, ScheduleCoder.decodeSlotOpt, h0, h1, h2,
          List.filter_cons]

/-- C10: for every 84-byte input and every day, the decoded dict has a key
for that day iff some slot of the day is not all-zero; and a present day maps
to the list of its non-all-zero slots decoded in input order (their original
slot positions discarded), a list of length 1 to 3. -/
theorem C10_decode_structure (b : List ℕ) (hb : b.length = 84) (d : Fin 7) :
    ((ScheduleCoder.decode_schedule b d).isSome = true ↔
      ∃ i, i < 3 ∧ ScheduleCoder.zeroSlotB (ScheduleCoder.slotAt b d.val i) = false) ∧
    (∀ l, ScheduleCoder.decode_schedule b d = some l →
      1 ≤ l.length ∧ l.length ≤ 3 ∧
      l = ((List.range 3).filter
            (fun i => !ScheduleCoder.zeroSlotB (ScheduleCoder.slotAt b d.val i))).map
          (fun i => ScheduleCoder.decodeSlot (ScheduleCoder.slotAt b d.val i))) := by
  have hnlt : ¬ b.length < 84 := by omega
  have hbody : ScheduleCoder.decode_schedule b d =
      (if ScheduleCoder.decodeDaySlots b d.val = [] then none
       else some (ScheduleCoder.decodeDaySlots b d.val)) := by
    unfold ScheduleCoder.decode_schedule
    rw [if_neg hnlt]
  have hds := decodeDaySlots_eq_filter_map b d.val
  have hall : ∀ i, i < 3 → (i ∈ List.range 3) := by intro i hi; exact List.mem_range.mpr hi
  constructor
  · rw [hbody]
    by_cases hempty : ScheduleCoder.decodeDaySlots b d.val = []
    · simp only [hempty, if_true, Option.isSome_none]
      constructor
      · intro h; cases h
      · rintro ⟨i, hi, hz⟩
        rw [hds, List.map_eq_nil_iff] at hempty
        have := List.filter_eq_nil_iff.mp hempty i (hall i hi)
        simp [hz] at this
    · simp only [hempty, if_false, Option.isSome_some, true_iff]
      by_contra hno
      push_neg at hno
      apply hempty
      rw [hds, List.map_eq_nil_iff]
      apply List.filter_eq_nil_iff.mpr
      intro a ha
      have ha3 := List.mem_range.mp ha
      have := hno a ha3
      simp only [Bool.not_eq_true]
      rcases hcase : ScheduleCoder.zeroSlotB (ScheduleCoder.slotAt b d.val a) with _ | _
      · exact absurd hcase this
      · simp
  · intro l hl
    rw [hbody] at hl
    by_cases hempty : ScheduleCoder.decodeDaySlots b d.val = []
    · rw [if_pos hempty] at hl; cases hl
    · rw [if_neg hempty] at hl
      obtain rfl : ScheduleCoder.decodeDaySlots b d.val = l := Option.some.inj hl
      refine ⟨?_, ?_, hds⟩
      · rcases hll : ScheduleCoder.decodeDaySlots b d.val with _ | _
        · exact absurd hll hempty
        · simp
      · rw [hds, List.length_map]
        calc (List.filter _ (List.range 3)).length ≤ (List.range 3).length :=
              List.length_filter_le _ _
          _ = 3 := by simp

theorem C10_witness :
    ((ScheduleCoder.decode_schedule cexPayload 0).isSome = true ↔
      ∃ i, i < 3 ∧
        ScheduleCoder.zeroSlotB (ScheduleCoder.slotAt cexPayload ((0 : Fin 7) : ℕ) i) = false) ∧
    (∀ l, ScheduleCoder.decode_schedule cexPayload 0 = some l →
      1 ≤ l.length ∧ l.length ≤ 3 ∧
      l = ((List.range 3).filter
            (fun i => !ScheduleCoder.zeroSlotB
              (ScheduleCoder.slotAt cexPayload ((0 : Fin 7) : ℕ) i))).map
          (fun i => ScheduleCoder.decodeSlot
            (ScheduleCoder.slotAt cexPayload ((0 : Fin 7) : ℕ) i))) :=
  C10_decode_structure cexPayload (by decide) 0

/-! ## `PowerStateEstimator` (a53/common/power_state_estimator.py)

Python floats are embedded as `ℚ`.  `statistics.stdev` is the square root of
the sample variance; since both sides of the source's only use of it
(`stdev > 0.5`, line 89) are nonnegative and the square root is monotone, the
comparison is embedded as `sampleVariance > 1/4`.  `statistics.linear_regression`
computes slope `Σ(x-x̄)(y-ȳ) / Σ(x-x̄)²` (it raises `StatisticsError` when all
x coincide; per spec §9 behavior on duplicate timestamps is unspecified, so
the theorems below assume a non-degenerate window where needed).
`time.time()` reads are passed in as an explicit `now` parameter; logging is
dropped; the `_slope`/`_stddev` fields are written in `__init__` but never
read, and are omitted. -/

inductive PowerState where
  | on
  | off
  | warming_up
  | unknown
deriving DecidableEq, Repr

def Statistics.mean (l : List ℚ) : ℚ := l.sum / l.length

/-- Sample variance `Σ(x-x̄)²/(n-1)`; `statistics.stdev` is its square root. -/
def Statistics.sampleVariance (l : List ℚ) : ℚ :=
  ((l.map (fun x => (x - Statistics.mean l) ^ 2)).sum) / ((l.length : ℚ) - 1)

/-- The slope returned by `statistics.linear_regression(xs, ys)`. -/
def Statistics.linearRegressionSlope (xs ys : List ℚ) : ℚ :=
  (((xs.zip ys).map (fun p => (p.1 - Statistics.mean xs) * (p.2 - Statistics.mean ys))).sum) /
    ((xs.map (fun x => (x - Statistics.mean xs) ^ 2)).sum)

structure PowerStateEstimator where
  target_temp : ℚ
  window_size : ℕ
  temperatures : List ℚ
  timestamps : List ℚ
  power_state : PowerState
  last_change_timestamp : ℚ
deriving DecidableEq, Repr

/-- `__init__` (lines 22–34): empty deques, state `UNKNOWN`, last change now. -/
def PowerStateEstimator.init (target_temp : ℚ) (window_size : ℕ) (now : ℚ) :
    PowerStateEstimator :=
  { target_temp := target_temp
    window_size := window_size
    temperatures := []
    timestamps := []
    power_state := PowerState.unknown
    last_change_timestamp := now }

/-- `deque(maxlen=n).append`: append right, evict from the left past capacity. -/
def dequeAppend (maxlen : ℕ) (l : List ℚ) (x : ℚ) : List ℚ :=
  let l2 := l ++ [x]
  l2.drop (l2.length - maxlen)

/-- `set_power_state` (lines 46–57): update state and last-change timestamp
only when the state actually differs; `timestamp=None` falls back to
`time.time()` (the `now` parameter). -/
def PowerStateEstimator.set_power_state (e : PowerStateEstimator) (state : PowerState)
    (timestamp : Option ℚ) (now : ℚ) : PowerStateEstimator :=
  if state ≠ e.power_state then
    { e with power_state := state, last_change_timestamp := timestamp.getD now }
  else e

/-- `_recalculate_power_state` (lines 73–97). -/
def PowerStateEstimator.recalculate_power_state (e : PowerStateEstimator) (now : ℚ) :
    PowerStateEstimator :=
  let temperature := e.temperatures.getLastD 0
  let current_time := e.timestamps.getLastD 0
  if e.temperatures.length < 4 then
    e.set_power_state PowerState.unknown none now
  else
    let slope := Statistics.linearRegressionSlope e.timestamps e.temperatures
    let varT := Statistics.sampleVariance e.temperatures
    let mean_temp := Statistics.mean e.temperatures
    if mean_temp ≥ e.target_temp - 5 ∨ temperature ≥ e.target_temp then
      e.set_power_state PowerState.on (some current_time) now
    else if slope > 1/20 ∧ varT > 1/4 then
      e.set_power_state PowerState.warming_up (some current_time) now
    else if slope < -(1/100) ∧ mean_temp < e.target_temp - 5 then
      e.set_power_state PowerState.off (some current_time) now
    else e

/-- `temperature_updated` (lines 59–71): append the sample to both deques and
recompute.  `current_time` is `current_time_ms / 1000` (or the wall clock when
the caller passes `None`); `now` is the wall clock read by `set_power_state`
when no timestamp is supplied. -/
def PowerStateEstimator.temperature_updated (e : PowerStateEstimator)
    (temperature current_time now : ℚ) : PowerStateEstimator :=
  let e1 := { e with
    temperatures := dequeAppend e.window_size e.temperatures temperature
    timestamps := dequeAppend e.window_size e.timestamps current_time }
  e1.recalculate_power_state now

/-- A sequence of `temperature_updated` calls, each with its sample value,
sample time and wall-clock time. -/
def runUpdates (e : PowerStateEstimator) (us : List (ℚ × ℚ × ℚ)) : PowerStateEstimator :=
  us.foldl (fun a u => a.temperature_updated u.1 u.2.1 u.2.2) e

theorem set_power_state_temperatures (e : PowerStateEstimator) (s : PowerState)
    (ts : Option ℚ) (now : ℚ) :
    (e.set_power_state s ts now).temperatures = e.temperatures := by
  unfold PowerStateEstimator.set_power_state
  split <;> rfl

theorem set_power_state_power (e : PowerStateEstimator) (s : PowerState)
    (ts : Option ℚ) (now : ℚ) :
    (e.set_power_state s ts now).power_state = s := by
  unfold PowerStateEstimator.set_power_state
  split
  · rfl
  · next h => exact (not_ne_iff.mp h).symm

theorem recalc_temperatures (e : PowerStateEstimator) (now : ℚ) :
    (e.recalculate_power_state now).temperatures = e.temperatures := by
  unfold PowerStateEstimator.recalculate_power_state
  dsimp only
  split
  · simp [set_power_state_temperatures]
  · split
    · simp [set_power_state_temperatures]
    · split
      · simp [set_power_state_temperatures]
      · split
        · simp [set_power_state_temperatures]
        · rfl

theorem temperature_updated_few (e : PowerStateEstimator) (t c n : ℚ)
    (h : (e.temperature_updated t c n).temperatures.length < 4) :
    (e.temperature_updated t c n).power_state = PowerState.unknown := by
  unfold PowerStateEstimator.temperature_updated at h ⊢
  rw [recalc_temperatures] at h
  simp only [PowerStateEstimator.recalculate_power_state]
  rw [if_pos h]
  exact set_power_state_power _ _ _ _

/-- C4: after any nonempty sequence of `temperature_updated` calls that leaves
fewer than 4 samples in the window, the power state is `unknown`, regardless
of the starting estimator state (including one set manually through
`set_power_state`). -/
theorem C4_few_samples_unknown (e : PowerStateEstimator) (us : List (ℚ × ℚ × ℚ))
    (hne : us ≠ []) (hlt : (runUpdates e us).temperatures.length < 4) :
    (runUpdates e us).power_state = PowerState.unknown := by
  induction us generalizing e with
  | nil => exact absurd rfl hne
  | cons u rest ih =>
    by_cases hrest : rest = []
    · subst hrest
      simp only [runUpdates, List.foldl_cons, List.foldl_nil] at hlt ⊢
      exact temperature_updated_few _ _ _ _ hlt
    · simp only [runUpdates, List.foldl_cons] at hlt ⊢
      exact ih (e.temperature_updated u.1 u.2.1 u.2.2) hrest hlt

/-- The concrete instance: a manually-set `on` state is overwritten by a
single update that leaves one sample in the window. -/
def c4Start : PowerStateEstimator :=
  (PowerStateEstimator.init 95 5 0).set_power_state PowerState.on none 0

theorem C4_witness :
    (runUpdates c4Start [(50, 1, 1)]).power_state = PowerState.unknown :=
  C4_few_samples_unknown c4Start [(50, 1, 1)] (by simp) (by decide)

/-- C5: in every recompute with at least 4 samples (and a non-degenerate
window: not all timestamps equal, the case Python's `linear_regression`
rejects and spec §9 leaves unspecified): (a) whenever
`meanTemp ≥ target - 5` or the newest sample `≥ target`, the state becomes
`on` — the condition is tested first, so this holds for ANY slope value,
negative included; (b) whenever none of the on / warming-up / off conditions
holds, the estimator is returned unchanged, so the state is exactly the state
from the previous recompute. -/
theorem C5_recalc_order (e : PowerStateEstimator) (now : ℚ)
    (h4 : 4 ≤ e.temperatures.length)
    (hdeg : ((e.timestamps.map (fun x => (x - Statistics.mean e.timestamps) ^ 2)).sum) ≠ 0) :
    ((Statistics.mean e.temperatures ≥ e.target_temp - 5 ∨
        e.temperatures.getLastD 0 ≥ e.target_temp) →
      (e.recalculate_power_state now).power_state = PowerState.on) ∧
    ((¬ (Statistics.mean e.temperatures ≥ e.target_temp - 5 ∨
          e.temperatures.getLastD 0 ≥ e.target_temp) ∧
      ¬ (Statistics.linearRegressionSlope e.timestamps e.temperatures > 1/20 ∧
          Statistics.sampleVariance e.temperatures > 1/4) ∧
      ¬ (Statistics.linearRegressionSlope e.timestamps e.temperatures < -(1/100) ∧
          Statistics.mean e.temperatures < e.target_temp - 5)) →
      (e.recalculate_power_state now) = e) := by
  have hnlt : ¬ e.temperatures.length < 4 := by omega
  constructor
  · intro hON
    simp only [PowerStateEstimator.recalculate_power_state]
    rw [if_neg hnlt, if_pos hON]
    exact set_power_state_power _ _ _ _
  · rintro ⟨hA, hB, hC⟩
    simp only [PowerStateEstimator.recalculate_power_state]
    rw [if_neg hnlt, if_neg hA, if_neg hB, if_neg hC]

/-- The concrete instance: four strictly decreasing samples (slope −1) whose
mean 98.5 still lies above `target − 5 = 90`, so the recompute yields `on`
despite the negative slope. -/
def c5Estimator : PowerStateEstimator :=
  { target_temp := 95
    window_size := 5
    temperatures := [100, 99, 98, 97]
    timestamps := [0, 1, 2, 3]
    power_state := PowerState.off
    last_change_timestamp := 0 }

theorem C5_witness :
    Statistics.linearRegressionSlope c5Estimator.timestamps c5Estimator.temperatures < 0 ∧
    (c5Estimator.recalculate_power_state 10).power_state = PowerState.on := by
  constructor
  · show Statistics.linearRegressionSlope [0, 1, 2, 3] [100, 99, 98, 97] < 0
    simp only [Statistics.linearRegressionSlope, Statistics.mean, List.zip_cons_cons,
      List.zip_nil_right, List.map_cons, List.map_nil, List.sum_cons, List.sum_nil,
      List.length_cons, List.length_nil]
    norm_num
  · apply (C5_recalc_order c5Estimator 10 (by decide) ?_).1 ?_
    · show (([0, 1, 2, 3] : List ℚ).map
          (fun x => (x - Statistics.mean [0, 1, 2, 3]) ^ 2)).sum ≠ 0
      simp only [Statistics.mean, List.map_cons, List.map_nil, List.sum_cons, List.sum_nil,
        List.length_cons, List.length_nil]
      norm_num
    · left
      show Statistics.mean [100, 99, 98, 97] ≥ (95 : ℚ) - 5
      simp only [Statistics.mean, List.sum_cons, List.sum_nil, List.length_cons,
        List.length_nil]
      norm_num

/-! ## `BLEWorker` poll command handling (a53/bt/ble_worker.py lines 107–118)

The worker's main loop owns one `polling_task` variable.  On dequeuing a
`list_characteristics` command it runs (lines 109–118):

    if polling_task and not polling_task.done():
        polling_task.cancel()
    coro = list_characteristics(self._client, q, poll_interval)
    task = self.loop.create_task(coro)
    if poll_interval > 0:
        polling_task = task

The event loop's task table is modelled as a function from task ids to an
optional `TaskStatus`.  Per asyncio semantics, `Task.cancel()` only REQUESTS
cancellation of a running task — the task finishes at its next suspension
point, and the handler contains no `await` between the cancel request and
`create_task` (the loop's next suspension is the `asyncio.sleep(0.1)` of line
123).  The prior task is awaited only on worker shutdown (lines 125–130). -/

inductive TaskStatus where
  | running
  | cancelRequested
  | finished
deriving DecidableEq, Repr

structure WorkerState where
  tasks : ℕ → Option TaskStatus
  polling_task : Option ℕ
  next_id : ℕ

/-- `Task.done()`. -/
def WorkerState.taskDone (w : WorkerState) (tid : ℕ) : Bool :=
  w.tasks tid == some TaskStatus.finished

/-- Effect of `Task.cancel()` on a task's status: a running task becomes
cancel-requested; a finished (or already cancel-requested) task is unchanged. -/
def cancelStatus : Option TaskStatus → Option TaskStatus
  | some TaskStatus.running => some TaskStatus.cancelRequested
  | s => s

def WorkerState.cancelTask (w : WorkerState) (tid : ℕ) : WorkerState :=
  { w with tasks := fun t => if t = tid then cancelStatus (w.tasks t) else w.tasks t }

/-- `loop.create_task(coro)`: registers a fresh running task and returns its id. -/
def WorkerState.createTask (w : WorkerState) : WorkerState × ℕ :=
  ({ w with
      tasks := fun t => if t = w.next_id then some TaskStatus.running else w.tasks t
      next_id := w.next_id + 1 },
   w.next_id)

/-- Lines 107–118, the handler for a dequeued `list_characteristics` command. -/
def handle_list_characteristics (w : WorkerState) (poll_interval : ℚ) : WorkerState :=
  let w1 :=
    match w.polling_task with
    | some tid => if w.taskDone tid then w else w.cancelTask tid
    | none => w
  let wc := w1.createTask
  if 0 < poll_interval then { wc.1 with polling_task := some wc.2 } else wc.1

/-- A worker whose poll task 0 is active. -/
def c7Worker : WorkerState :=
  { tasks := fun t => if t = 0 then some TaskStatus.running else none
    polling_task := some 0
    next_id := 1 }

/-- C7 counterexample: dequeuing a new Poll command while task 0 is active
leaves task 0 merely cancel-requested — NOT terminated — while the new task 1
is already running: two poll tasks are simultaneously active, so "the prior
task's termination is awaited before the new poll task starts, hence at most
one poll task is active at any time" is false. -/
theorem C7_counterexample :
    (handle_list_characteristics c7Worker 1).tasks 0 = some TaskStatus.cancelRequested ∧
    (handle_list_characteristics c7Worker 1).tasks 1 = some TaskStatus.running ∧
    ¬ (∀ t1 t2 : ℕ,
        (∃ s, (handle_list_characteristics c7Worker 1).tasks t1 = some s ∧
          s ≠ TaskStatus.finished) →
        (∃ s, (handle_list_characteristics c7Worker 1).tasks t2 = some s ∧
          s ≠ TaskStatus.finished) →
        t1 = t2) := by
  have h1 : (0 : ℚ) < 1 := by norm_num
  have h0 : (handle_list_characteristics c7Worker 1).tasks 0 =
      some TaskStatus.cancelRequested := by
    simp [handle_list_characteristics, c7Worker, WorkerState.taskDone,
      WorkerState.cancelTask, WorkerState.createTask, cancelStatus, h1]
  have h2 : (handle_list_characteristics c7Worker 1).tasks 1 =
      some TaskStatus.running := by
    simp [handle_list_characteristics, c7Worker, WorkerState.taskDone,
      WorkerState.cancelTask, WorkerState.createTask, cancelStatus, h1]
  refine ⟨h0, h2, ?_⟩
  intro hone
  have := hone 0 1 ⟨TaskStatus.cancelRequested, h0, by decide⟩
    ⟨TaskStatus.running, h2, by decide⟩
  exact absurd this (by decide)

/-- C7 amended: when a new Poll command (positive interval) is dequeued while
the tracked poll task is running, the handler requests that task's
cancellation but does NOT await its termination: immediately afterwards the
old task is cancel-requested (not finished) while the new task is already
running and tracked — two poll tasks coexist unfinished until the cancelled
one next reaches a suspension point.  Termination of a poll task is awaited
only at worker shutdown. -/
theorem C7_poll_supersede (w : WorkerState) (interval : ℚ) (tid : ℕ)
    (hpoll : w.polling_task = some tid)
    (hrun : w.tasks tid = some TaskStatus.running)
    (hpos : 0 < interval)
    (hfresh : ∀ t, w.next_id ≤ t → w.tasks t = none) :
    (handle_list_characteristics w interval).tasks tid = some TaskStatus.cancelRequested ∧
    (handle_list_characteristics w interval).tasks w.next_id = some TaskStatus.running ∧
    (handle_list_characteristics w interval).polling_task = some w.next_id ∧
    tid ≠ w.next_id := by
  have htid : tid < w.next_id := by
    by_contra hh
    push_neg at hh
    rw [hfresh tid hh] at hrun
    cases hrun
  have hne : tid ≠ w.next_id := by omega
  have hdone : w.taskDone tid = false := by
    simp [WorkerState.taskDone, hrun]
  refine ⟨?_, ?_, ?_, hne⟩ <;>
    simp [handle_list_characteristics, hpoll, hdone, WorkerState.cancelTask,
      WorkerState.createTask, cancelStatus, hpos, hne, hrun]

/-- Closed instance of the amended C7 theorem at the concrete worker state. -/
theorem C7_witness :
    (handle_list_characteristics c7Worker 2).tasks 0 = some TaskStatus.cancelRequested ∧
    (handle_list_characteristics c7Worker 2).tasks c7Worker.next_id =
      some TaskStatus.running ∧
    (handle_list_characteristics c7Worker 2).polling_task = some c7Worker.next_id ∧
    0 ≠ c7Worker.next_id :=
  C7_poll_supersede c7Worker 2 0 rfl rfl (by norm_num)
    (fun t ht => by
      have ht1 : 1 ≤ t := ht
      simp [c7Worker]
      omega)
